import Mathlib

/-!
Verification of the certbot-dns-20i DNS authenticator core
(file certbot_dns_20i/dns_20i.py) against its specification.

Python strings are modelled as lists of characters (Python strings are
sequences of code points), so slicing, endswith, split and join become
ordinary list operations.  Fallible Python code (code that may raise) is
modelled with Except.  The provider REST client (TwentyIRestAPI) is an
external collaborator: its get_domain_info probe is modelled as an oracle
function returning Except, and the outcome of a POST request is passed in
as a parameter.  The posts a reconciler operation issues are recorded in
an ApiTrace so that the no-mutation-on-error properties are expressible.
-/

/-- A Python string: a list of characters. -/
abbrev PyStr := List Char

/-- Conversion from a Lean string literal to the Python string model. -/
def pys (s : String) : PyStr := s.toList

/-- The error values the code can raise or observe.  httpError models
requests.exceptions.HTTPError, with a flag marking a server-class (5xx)
status; apiError models twentyi_api.APIError; connectionError stands for
any transport failure that is neither of those (for example
requests.exceptions.ConnectionError); pluginError and pluginErrorCause
model certbot.errors.PluginError without and with a cause argument. -/
inductive DnsError where
  | httpError (serverClass : Bool)
  | apiError
  | connectionError
  | pluginError (msg : PyStr)
  | pluginErrorCause (msg : PyStr) (cause : DnsError)
deriving DecidableEq, Repr

/-- One element of the record list returned by GET /domain/zone/dns. -/
structure DnsRecord where
  host : PyStr
  type : PyStr
  txt : PyStr
  ref : PyStr
deriving DecidableEq, Repr

instance : Inhabited DnsRecord := ⟨⟨[], [], [], []⟩⟩

/-- A POST body sent to /domain/zone/dns: either the creation of one TXT
record or a deletion by record references. -/
inductive PostBody where
  | newTxt (host txt : PyStr)
  | delete (refs : List PyStr)
deriving DecidableEq, Repr

/-- The observable outcome of one reconciler operation: the posts it
issued to the provider, in order, and its final result. -/
structure ApiTrace where
  posts : List PostBody
  result : Except DnsError Unit
deriving Repr

/-- Python s.endswith(t). -/
def pyEndsWith (s t : PyStr) : Bool := t.isSuffixOf s

/-- Python s.rstrip(".") : remove every trailing dot. -/
def pyRstripDots (s : PyStr) : PyStr := (s.reverse.dropWhile (fun c => c == '.')).reverse

/-- Python sep.join(parts) for the one-character separator ".". -/
def pyJoinDots (parts : List PyStr) : PyStr := List.intercalate ['.'] parts

/-- Embedding of Authenticator._split_record_name.  Source:
if full_name.endswith(zone): return full_name[:-(len(zone) + 1)]
else: raise errors.PluginError(...). -/
def _split_record_name (full_name zone : PyStr) : Except DnsError PyStr :=
  if pyEndsWith full_name zone then
    .ok (full_name.take (full_name.length - (zone.length + 1)))
  else
    .error (.pluginError (pys ("Record name is not a prefix of domain zone")))

/-- The host string both reconciler operations compare against:
Python expression ".".join([record_name, zone]). -/
def joinHost (record_name zone : PyStr) : PyStr := pyJoinDots [record_name, zone]

/-- Embedding of TwentyIDns.add_txt_record.  records is the record list
fetched by the initial GET; postResult is the provider outcome of the
creation POST, should it be issued.  The conflict loop raises before any
POST when some existing record host equals the joined host; otherwise the
creation POST is issued (host "@" when record_name is empty, Python
truthiness) and an HTTPError from it is wrapped in a PluginError with the
original exception as cause, while any other error propagates as is. -/
def add_txt_record (postResult : Except DnsError Unit)
    (zone record_name record_content : PyStr) (records : List DnsRecord) : ApiTrace :=
  if records.any (fun record => record.host == joinHost record_name zone) then
    { posts := []
      result := .error (.pluginError
        (pys ("Found an existing acme_challenge record for ") ++ zone)) }
  else
    let body := PostBody.newTxt (if record_name.isEmpty then pys ("@") else record_name)
      record_content
    match postResult with
    | .ok _ => { posts := [body], result := .ok () }
    | .error (.httpError s) =>
        { posts := [body]
          result := .error (.pluginErrorCause
            (pys ("Failed to add TXT record ") ++ record_name ++ pys (" on ") ++ zone)
            (.httpError s)) }
    | .error e => { posts := [body], result := .error e }

/-- The filter predicate of TwentyIDns.del_txt_record: type is TXT, host
is the joined host, and txt is the record content. -/
def delMatch (zone record_name record_content : PyStr) (x : DnsRecord) : Bool :=
  x.type == pys ("TXT") && x.host == joinHost record_name zone
    && x.txt == record_content

/-- Embedding of TwentyIDns.del_txt_record.  records is the fetched
record list; postResult is the provider outcome of the deletion POST,
should it be issued.  When the filtered count differs from 1 a
PluginError reporting the count is raised and no POST is issued;
otherwise one deletion POST naming the matched record reference goes out
(its outcome is not caught by the source, so it is the final result). -/
def del_txt_record (postResult : Except DnsError Unit)
    (zone record_name record_content : PyStr) (records : List DnsRecord) : ApiTrace :=
  let matched := records.filter (delMatch zone record_name record_content)
  if matched.length != 1 then
    { posts := []
      result := .error (.pluginError
        (pys ("Expecting to find 1 record to delete, found ")
          ++ pys (toString matched.length))) }
  else
    { posts := [PostBody.delete [(matched.headD default).ref]], result := postResult }

/-- The stripped challenge name the resolver derives candidates from:
Python expression f-string of "_acme_challenge." plus domain, with
rstrip(".") applied. -/
def chalName (domain : PyStr) : PyStr := pyRstripDots (pys ("_acme_challenge.") ++ domain)

/-- The label list of Authenticator._find_zone_id_for_domain, variable
candidate_zones in the source: the stripped challenge name split on ".".
Python single-separator str.split is List.splitOn on the character. -/
def candidateZones (domain : PyStr) : List PyStr := (chalName domain).splitOn '.'

/-- The candidate list probed by the resolver, in order: the source list
comprehension joining candidate_zones[i:] with "." for i in
range(0, len(candidate_zones)). -/
def candidates (domain : PyStr) : List PyStr :=
  (List.range (candidateZones domain).length).map
    (fun i => pyJoinDots ((candidateZones domain).drop i))

/-- Which errors the probe loop swallows.  The source line is
except HTTPError, APIError: continue - invalid Python 3 syntax (and the
package requires Python at least 3.6); it is modelled as catching both
named exception classes, the evident intent.  Note that HTTPError covers
every non-2xx status, server errors included. -/
def probeCaught : DnsError → Bool
  | .httpError _ => true
  | .apiError => true
  | _ => false

/-- The probe loop of Authenticator._find_zone_id_for_domain over a
candidate list: return the first candidate whose lookup succeeds, swallow
caught-class lookup errors, propagate any other error, and raise the
unable-to-find PluginError when the candidates run out. -/
def probeLoop (lookup : PyStr → Except DnsError Unit) (domain : PyStr) :
    List PyStr → Except DnsError PyStr
  | [] => .error (.pluginError (pys ("Unable to find a 20i hosted zone for ") ++ domain))
  | c :: cs =>
    match lookup c with
    | .ok _ => .ok c
    | .error e => if probeCaught e then probeLoop lookup domain cs else .error e

/-- Embedding of Authenticator._find_zone_id_for_domain, with the
provider get_domain_info call abstracted as the lookup oracle. -/
def _find_zone_id_for_domain (lookup : PyStr → Except DnsError Unit) (domain : PyStr) :
    Except DnsError PyStr :=
  probeLoop lookup domain (candidates domain)

/-- Embedding of Authenticator._get_zone_id_for_domain.  zone_id is the
value of the instance field self._zone_id before the call; the returned
pair is the resolved zone and the field value after the call. -/
def _get_zone_id_for_domain (lookup : PyStr → Except DnsError Unit)
    (zone_id : Option PyStr) (domain : PyStr) : Except DnsError (PyStr × Option PyStr) :=
  match zone_id with
  | some z => .ok (z, some z)
  | none =>
    match _find_zone_id_for_domain lookup domain with
    | .ok z => .ok (z, some z)
    | .error e => .error e

/-- A provider zone set as a lookup oracle: get_domain_info succeeds
exactly on members of Z and otherwise fails with a client-class (404)
HTTPError, the way a hosted-zone check behaves. -/
def zoneLookup (Z : List PyStr) (c : PyStr) : Except DnsError Unit :=
  if c ∈ Z then .ok () else .error (.httpError false)

/-- A lookup oracle under which the domain a.com exists but every other
probe fails with a server-class (5xx) HTTPError, modelling a provider
outage answering 500 for the first candidate. -/
def serverErrorThenOk : PyStr → Except DnsError Unit := fun c =>
  if c == pys ("a.com") then .ok () else .error (.httpError true)

/-- z is a dot-delimited suffix of d: either equal to d or preceded in d
by a dot. -/
def dotSuffix (z d : PyStr) : Bool := z == d || ('.' :: z).isSuffixOf d

/-- The number of dot-separated labels of a name. -/
def labelCount (s : PyStr) : Nat := (s.splitOn '.').length

/-- Whether an Except value is a success. -/
def exceptOk (x : Except DnsError Unit) : Bool :=
  match x with
  | .ok _ => true
  | .error _ => false

/-- The two-element dot join is plain concatenation with a dot between. -/
theorem joinHost_eq (record_name zone : PyStr) :
    joinHost record_name zone = record_name ++ '.' :: zone := by
  simp [joinHost, pyJoinDots, List.intercalate]

/-- Python split never returns an empty list of groups. -/
theorem splitOn_never_nil (x : Char) (xs : List Char) : xs.splitOn x ≠ [] := by
  rw [List.splitOn]
  exact List.splitOnP_ne_nil _ xs

/-- No group produced by splitOnP contains an element satisfying the
splitting predicate. -/
theorem not_mem_of_mem_splitOnP (p : Char → Bool) :
    ∀ (xs : List Char), ∀ g ∈ xs.splitOnP p, ∀ y ∈ g, ¬ p y := by
  intro xs
  induction xs with
  | nil =>
    intro g hg y hy
    simp at hg
    subst hg
    simp at hy
  | cons a as ih =>
    intro g hg y hy
    rw [List.splitOnP_cons] at hg
    by_cases ha : p a
    · rw [if_pos ha] at hg
      rcases List.mem_cons.mp hg with h1 | h1
      · subst h1; simp at hy
      · exact ih g h1 y hy
    · rw [if_neg ha] at hg
      rcases hsp : as.splitOnP p with _ | ⟨h0, t0⟩
      · exact absurd hsp (List.splitOnP_ne_nil p as)
      · rw [hsp] at hg
        simp only [List.modifyHead] at hg
        rcases List.mem_cons.mp hg with h1 | h1
        · subst h1
          rcases List.mem_cons.mp hy with h2 | h2
          · subst h2; exact ha
          · exact ih h0 (by rw [hsp]; exact List.mem_cons_self _ _) y h2
        · exact ih g (by rw [hsp]; exact List.mem_cons_of_mem _ h1) y hy

/-- No group produced by Python split contains the separator. -/
theorem not_mem_of_mem_splitOn (x : Char) (xs : List Char) :
    ∀ g ∈ xs.splitOn x, x ∉ g := by
  intro g hg hy
  rw [List.splitOn] at hg
  exact not_mem_of_mem_splitOnP _ xs g hg x hy (by simp)

/-- Joining a concatenation of two nonempty group lists inserts one
separator between the joined halves. -/
theorem intercalate_append_nonempty (x : Char) :
    ∀ (A B : List (List Char)), A ≠ [] → B ≠ [] →
      [x].intercalate (A ++ B) = [x].intercalate A ++ x :: [x].intercalate B := by
  intro A
  induction A with
  | nil => intro B h _; exact absurd rfl h
  | cons a A' ih =>
    intro B _ hB
    rcases A' with _ | ⟨a2, A''⟩
    · rcases B with _ | ⟨b, B'⟩
      · exact absurd rfl hB
      · simp only [List.nil_append, List.singleton_append]
        rw [List.intercalate, List.intercalate,
          List.intersperse_cons_cons]
        simp [List.intercalate]
    · rw [List.cons_append, List.intercalate, List.intercalate,
        List.intersperse_cons_cons, List.cons_append,
        List.intersperse_cons_cons]
      have := ih B (by simp) hB
      rw [List.intercalate, List.intercalate] at this
      simp only [List.flatten, List.cons_append] at this ⊢
      rw [this]
      simp

/-- Joining a nonempty tail after a head group. -/
theorem intercalate_cons_nonempty (x : Char) (g : List Char) (M : List (List Char))
    (hM : M ≠ []) : [x].intercalate (g :: M) = g ++ x :: [x].intercalate M := by
  have := intercalate_append_nonempty x [g] M (by simp) hM
  simpa [List.intercalate] using this

/-- Every dot-delimited suffix of a joined group list is the join of some
dropped tail of the groups, provided no group contains a dot. -/
theorem suffix_intercalate_eq_drop (M : List (List Char))
    (hdot : ∀ g ∈ M, '.' ∉ g) (z : List Char)
    (h : z = ['.'].intercalate M ∨ ('.' :: z) <:+ ['.'].intercalate M) :
    M = [] ∨ ∃ i, i < M.length ∧ z = ['.'].intercalate (M.drop i) := by
  induction M with
  | nil => exact Or.inl rfl
  | cons g M' ih =>
    refine Or.inr ?_
    rcases h with h | h
    · exact ⟨0, by simp, by simpa using h⟩
    · cases M' with
      | nil =>
        have hg : ['.'].intercalate [g] = g := by simp [List.intercalate]
        rw [hg] at h
        exact absurd (h.mem (List.mem_cons_self '.' z))
          (hdot g (List.mem_cons_self _ _))
      | cons g2 M'' =>
        have hM2 : (g2 :: M'' : List (List Char)) ≠ [] := by simp
        have hre : ['.'].intercalate (g :: g2 :: M'')
            = g ++ '.' :: ['.'].intercalate (g2 :: M'') :=
          intercalate_cons_nonempty '.' g (g2 :: M'') hM2
        rw [hre] at h
        have hb : ('.' :: ['.'].intercalate (g2 :: M''))
            <:+ g ++ '.' :: ['.'].intercalate (g2 :: M'') := List.suffix_append _ _
        have step1 : z = ['.'].intercalate (g2 :: M'') →
            ∃ i, i < (g :: g2 :: M'').length
              ∧ z = ['.'].intercalate ((g :: g2 :: M'').drop i) := by
          intro hz
          exact ⟨1, by simp, by simpa using hz⟩
        rcases List.suffix_or_suffix_of_suffix h hb with hc | hc
        · rcases List.suffix_cons_iff.mp hc with hc1 | hc1
          · refine step1 ?_
            injection hc1
          · have ihres := ih (fun g hg => hdot g (List.mem_cons_of_mem _ hg)) (Or.inr hc1)
            rcases ihres with h0 | ⟨j, hj, hz⟩
            · exact absurd h0 hM2
            · exact ⟨j + 1, by simpa using hj, by simpa using hz⟩
        · obtain ⟨u, hu⟩ := hc
          cases u with
          | nil =>
            refine step1 ?_
            rw [List.nil_append] at hu
            injection hu.symm
          | cons c u' =>
            obtain ⟨w, hw⟩ := h
            rw [← hu, ← List.append_assoc] at hw
            have hg : w ++ c :: u' = g := List.append_cancel_right hw
            have hcdot : c = '.' := by
              have := hu
              rw [List.cons_append] at this
              injection this
            have hmem : ('.' : Char) ∈ g := by
              rw [← hg, hcdot]
              simp
            exact absurd hmem (hdot g (List.mem_cons_self _ _))

/-- Conversely, the join of any dropped tail of the groups is a
dot-delimited suffix of the join of all groups. -/
theorem drop_is_dot_suffix (M : List (List Char)) (i : Nat) (hi : i < M.length) :
    ['.'].intercalate (M.drop i) = ['.'].intercalate M
    ∨ ('.' :: ['.'].intercalate (M.drop i)) <:+ ['.'].intercalate M := by
  rcases Nat.eq_zero_or_pos i with h0 | h0
  · subst h0
    exact Or.inl (by rw [List.drop_zero])
  · right
    have htake : M.take i ≠ [] := by
      intro hc
      rcases List.take_eq_nil_iff.mp hc with hc | hc
      · omega
      · subst hc; simp at hi
    have hdrop : M.drop i ≠ [] := by
      intro hc
      have := List.drop_eq_nil_iff.mp hc
      omega
    have hsplit : ['.'].intercalate M
        = ['.'].intercalate (M.take i) ++ '.' :: ['.'].intercalate (M.drop i) := by
      conv_lhs => rw [← List.take_append_drop i M]
      exact intercalate_append_nonempty '.' (M.take i) (M.drop i) htake hdrop
    exact ⟨['.'].intercalate (M.take i), hsplit.symm⟩

/-- Splitting the join of a dropped tail of dot-free groups recovers the
tail. -/
theorem splitOn_intercalate_drop (M : List (List Char)) (i : Nat) (hi : i < M.length)
    (hdot : ∀ g ∈ M, '.' ∉ g) :
    (['.'].intercalate (M.drop i)).splitOn '.' = M.drop i := by
  refine List.splitOn_intercalate (M.drop i) '.'
    (fun l hl => hdot l (List.mem_of_mem_drop hl)) ?_
  intro hc
  have := List.drop_eq_nil_iff.mp hc
  omega

/-- Unfolding equation of the probe loop at a cons cell. -/
theorem probeLoop_cons (lookup : PyStr → Except DnsError Unit) (domain c : PyStr)
    (cs : List PyStr) :
    probeLoop lookup domain (c :: cs) =
      (match lookup c with
       | .ok _ => .ok c
       | .error e => if probeCaught e then probeLoop lookup domain cs else .error e) := rfl

/-- Over a zone-set oracle a probe step either hits a member or moves on:
the client-class lookup failure of a non-member is always swallowed. -/
theorem probeLoop_zone_cons (Z : List PyStr) (domain c : PyStr) (cs : List PyStr) :
    probeLoop (zoneLookup Z) domain (c :: cs) =
      if c ∈ Z then .ok c else probeLoop (zoneLookup Z) domain cs := by
  rw [probeLoop_cons]
  unfold zoneLookup
  by_cases hz : c ∈ Z
  · rw [if_pos hz, if_pos hz]
  · rw [if_neg hz, if_neg hz]
    rfl

/-- A successful probe over a zone-set oracle returns a member of the
zone set preceded in the candidate list only by non-members. -/
theorem probeLoop_zone_ok (Z : List PyStr) (domain : PyStr) :
    ∀ (cs : List PyStr) (z : PyStr), probeLoop (zoneLookup Z) domain cs = .ok z →
      ∃ l₁ l₂, cs = l₁ ++ z :: l₂ ∧ z ∈ Z ∧ ∀ x ∈ l₁, x ∉ Z := by
  intro cs
  induction cs with
  | nil =>
    intro z h
    exact absurd h (by simp [probeLoop])
  | cons c cs ih =>
    intro z h
    rw [probeLoop_zone_cons] at h
    by_cases hz : c ∈ Z
    · rw [if_pos hz] at h
      injection h with h
      subst h
      exact ⟨[], cs, rfl, hz, by simp⟩
    · rw [if_neg hz] at h
      obtain ⟨l₁, l₂, hcs, hzZ, hpre⟩ := ih z h
      refine ⟨c :: l₁, l₂, by rw [hcs, List.cons_append], hzZ, ?_⟩
      intro x hx
      rcases List.mem_cons.mp hx with h1 | h1
      · subst h1; exact hz
      · exact hpre x h1

/-- A probe over a zone-set oracle whose candidates all miss the zone set
raises the unable-to-find PluginError. -/
theorem probeLoop_zone_error (Z : List PyStr) (domain : PyStr) :
    ∀ (cs : List PyStr), (∀ x ∈ cs, x ∉ Z) →
      probeLoop (zoneLookup Z) domain cs =
        .error (.pluginError (pys ("Unable to find a 20i hosted zone for ") ++ domain)) := by
  intro cs
  induction cs with
  | nil => intro _; rfl
  | cons c cs ih =>
    intro h
    rw [probeLoop_zone_cons, if_neg (h c (List.mem_cons_self _ _))]
    exact ih (fun x hx => h x (List.mem_cons_of_mem _ hx))

/-- A probe over a zone-set oracle with some candidate in the zone set
succeeds. -/
theorem probeLoop_zone_exists (Z : List PyStr) (domain : PyStr) :
    ∀ (cs : List PyStr), (∃ x ∈ cs, x ∈ Z) →
      ∃ z, probeLoop (zoneLookup Z) domain cs = .ok z := by
  intro cs
  induction cs with
  | nil => rintro ⟨x, hx, _⟩; simp at hx
  | cons c cs ih =>
    rintro ⟨x, hx, hxZ⟩
    rw [probeLoop_zone_cons]
    by_cases hz : c ∈ Z
    · exact ⟨c, by rw [if_pos hz]⟩
    · rw [if_neg hz]
      rcases List.mem_cons.mp hx with h1 | h1
      · subst h1; exact absurd hxZ hz
      · exact ih ⟨x, h1, hxZ⟩

/-- C2: del_txt_record filters the fetched record set by the three-way
exact match on type TXT, joined host and content; a count other than one
yields a PluginError naming the count and no deletion POST; a count of
exactly one yields exactly one deletion POST carrying the matched record
reference, with the provider outcome as the final result. -/
theorem del_txt_record_reconciliation (postResult : Except DnsError Unit)
    (zone record_name record_content : PyStr) (records : List DnsRecord) :
    del_txt_record postResult zone record_name record_content records =
      (let matched := records.filter (fun x =>
          x.type == pys ("TXT") && x.host == record_name ++ '.' :: zone
            && x.txt == record_content)
       if matched.length = 1 then
         { posts := [PostBody.delete [(matched.headD default).ref]], result := postResult }
       else
         { posts := []
           result := .error (.pluginError
             (pys ("Expecting to find 1 record to delete, found ")
               ++ pys (toString matched.length))) }) := by
  unfold del_txt_record delMatch
  rw [joinHost_eq]
  by_cases h : (records.filter (fun x =>
      x.type == pys ("TXT") && x.host == record_name ++ '.' :: zone
        && x.txt == record_content)).length = 1 <;>
    simp [h]

/-- C3: when some fetched record already sits at the joined target host,
add_txt_record fails with the pre-existing-record PluginError and issues
no POST at all. -/
theorem add_txt_record_conflict (postResult : Except DnsError Unit)
    (zone record_name record_content : PyStr) (records : List DnsRecord)
    (h : ∃ r ∈ records, r.host = record_name ++ '.' :: zone) :
    add_txt_record postResult zone record_name record_content records =
      { posts := []
        result := .error (.pluginError
          (pys ("Found an existing acme_challenge record for ") ++ zone)) } := by
  obtain ⟨r, hr, hhost⟩ := h
  unfold add_txt_record
  rw [if_pos]
  exact List.any_eq_true.mpr ⟨r, hr, by simp [joinHost_eq, hhost]⟩

/-- C3 witness: a concrete conflicting record (of a non-TXT type, since
the conflict check looks only at the host) blocks the creation. -/
theorem add_txt_record_conflict_witness :
    add_txt_record (.ok ()) (pys ("ex.com")) (pys ("x")) (pys ("v"))
      [⟨pys ("x.ex.com"), pys ("A"), pys (""), pys ("r1")⟩] =
      { posts := []
        result := .error (.pluginError
          (pys ("Found an existing acme_challenge record for ") ++ pys ("ex.com"))) } :=
  add_txt_record_conflict (.ok ()) (pys ("ex.com")) (pys ("x")) (pys ("v"))
    [⟨pys ("x.ex.com"), pys ("A"), pys (""), pys ("r1")⟩]
    ⟨⟨pys ("x.ex.com"), pys ("A"), pys (""), pys ("r1")⟩, by decide, by decide⟩

/-- C9: when no record conflicts, a transport failure (HTTPError of
either status class) of the creation POST surfaces as a PluginError
wrapping that failure as its cause, and the operation result is that
error, never a silent success. -/
theorem add_txt_record_wraps_transport_failure (s : Bool)
    (zone record_name record_content : PyStr) (records : List DnsRecord)
    (h : ∀ r ∈ records, r.host ≠ record_name ++ '.' :: zone) :
    add_txt_record (.error (.httpError s)) zone record_name record_content records =
      { posts := [PostBody.newTxt (if record_name.isEmpty then pys ("@") else record_name)
            record_content]
        result := .error (.pluginErrorCause
          (pys ("Failed to add TXT record ") ++ record_name ++ pys (" on ") ++ zone)
          (.httpError s)) } := by
  unfold add_txt_record
  rw [if_neg]
  simp only [List.any_eq_true, not_exists, not_and]
  intro r hr
  simp [joinHost_eq, h r hr]

/-- C9 witness: a server-class transport failure on an empty provider
record set is wrapped with its cause preserved. -/
theorem add_txt_record_wraps_transport_failure_witness :
    add_txt_record (.error (.httpError true)) (pys ("ex.com")) (pys ("x")) (pys ("v")) [] =
      { posts := [PostBody.newTxt (pys ("x")) (pys ("v"))]
        result := .error (.pluginErrorCause
          (pys ("Failed to add TXT record ") ++ pys ("x") ++ pys (" on ") ++ pys ("ex.com"))
          (.httpError true)) } :=
  add_txt_record_wraps_transport_failure true (pys ("ex.com")) (pys ("x")) (pys ("v")) []
    (by simp)

/-- C10: for an apex record (empty record name) the conflict and deletion
filters compare hosts against the dot-join of the empty name and the
zone, a string beginning with a dot, while the creation POST sends the
host as the at-sign; hence existing apex records stored under the at-sign
or under the zone name itself are invisible to both filters. -/
theorem apex_host_asymmetry (postResult : Except DnsError Unit)
    (zone record_content : PyStr) (records : List DnsRecord)
    (h : ∀ r ∈ records, r.host = pys ("@") ∨ r.host = zone) :
    joinHost [] zone = '.' :: zone
    ∧ add_txt_record (.ok ()) zone [] record_content records =
        { posts := [PostBody.newTxt (pys ("@")) record_content], result := .ok () }
    ∧ del_txt_record postResult zone [] record_content records =
        { posts := []
          result := .error (.pluginError
            (pys ("Expecting to find 1 record to delete, found 0"))) } := by
  have hat : pys ("@") ≠ '.' :: zone := by
    show ¬ ('@' :: [] : PyStr) = '.' :: zone
    intro hco
    injection hco with h1 h2
    exact absurd h1 (by decide)
  have hhost : ∀ r ∈ records, (r.host == joinHost [] zone) = false := by
    intro r hr
    rw [joinHost_eq, List.nil_append]
    rcases h r hr with h1 | h1 <;> rw [h1]
    · exact beq_eq_false_iff_ne.mpr hat
    · exact beq_eq_false_iff_ne.mpr (List.cons_ne_self '.' zone).symm
  refine ⟨joinHost_eq [] zone, ?_, ?_⟩
  · unfold add_txt_record
    rw [if_neg]
    · rfl
    simp only [List.any_eq_true, not_exists, not_and]
    intro r hr
    simp [hhost r hr]
  · unfold del_txt_record
    have hfil : records.filter (delMatch zone [] record_content) = [] := by
      refine List.filter_eq_nil_iff.mpr (fun r hr => ?_)
      simp only [delMatch, Bool.and_eq_true, not_and, Bool.and_eq_true]
      intro hand
      rw [hhost r hr] at hand
      simp at hand
    rw [hfil]
    rfl

/-- C10 witness: with one at-sign apex record and one record stored under
the zone name, neither filter sees them. -/
theorem apex_host_asymmetry_witness :
    joinHost [] (pys ("ex.com")) = '.' :: pys ("ex.com")
    ∧ add_txt_record (.ok ()) (pys ("ex.com")) [] (pys ("v"))
        [⟨pys ("@"), pys ("TXT"), pys ("v"), pys ("r1")⟩,
         ⟨pys ("ex.com"), pys ("TXT"), pys ("v"), pys ("r2")⟩] =
        { posts := [PostBody.newTxt (pys ("@")) (pys ("v"))], result := .ok () }
    ∧ del_txt_record (.ok ()) (pys ("ex.com")) [] (pys ("v"))
        [⟨pys ("@"), pys ("TXT"), pys ("v"), pys ("r1")⟩,
         ⟨pys ("ex.com"), pys ("TXT"), pys ("v"), pys ("r2")⟩] =
        { posts := []
          result := .error (.pluginError
            (pys ("Expecting to find 1 record to delete, found 0"))) } :=
  apex_host_asymmetry (.ok ()) (pys ("ex.com")) (pys ("v"))
    [⟨pys ("@"), pys ("TXT"), pys ("v"), pys ("r1")⟩,
     ⟨pys ("ex.com"), pys ("TXT"), pys ("v"), pys ("r2")⟩]
    (by decide)

/-- C4 counterexample: "bar.com" is not a dot-delimited suffix of
"xbar.com", yet the splitter does not fail there, because the source only
checks the plain-string endswith condition; it even returns the empty
record name. -/
theorem split_dot_suffix_counterexample :
    _split_record_name (pys ("xbar.com")) (pys ("bar.com")) = .ok []
    ∧ dotSuffix (pys ("bar.com")) (pys ("xbar.com")) = false := ⟨rfl, by decide⟩

/-- C4 amended: _split_record_name fails with the
not-a-suffix PluginError exactly when the zone is not a plain string
suffix of the full name; in particular splitting "foo.com" against
"bar.com" errors. -/
theorem split_fails_iff_not_plain_suffix (full_name zone : PyStr) :
    (_split_record_name full_name zone
        = .error (.pluginError (pys ("Record name is not a prefix of domain zone")))
      ↔ ¬ zone <:+ full_name)
    ∧ _split_record_name (pys ("foo.com")) (pys ("bar.com"))
        = .error (.pluginError (pys ("Record name is not a prefix of domain zone"))) := by
  refine ⟨?_, rfl⟩
  unfold _split_record_name pyEndsWith
  by_cases h : zone <:+ full_name
  · rw [if_pos (List.isSuffixOf_iff_suffix.mpr h)]
    simp [h]
  · rw [if_neg (fun hc => h (List.isSuffixOf_iff_suffix.mp hc))]
    simp [h]

/-- C5 counterexample: for full name ".bar.com" and zone "bar.com" the
zone is a dot-delimited suffix of the full name, the splitter returns the
empty record name, and the reassembly rule (the zone itself when the
record name is empty) does not reconstruct the full name. -/
theorem split_reassembly_counterexample :
    dotSuffix (pys ("bar.com")) (pys (".bar.com")) = true
    ∧ _split_record_name (pys (".bar.com")) (pys ("bar.com")) = .ok []
    ∧ (if ([] : PyStr).isEmpty then pys ("bar.com") else [] ++ '.' :: pys ("bar.com"))
        ≠ pys (".bar.com") := ⟨by decide, rfl, by decide⟩

/-- C5 amended: whenever the zone is a dot-delimited suffix of the full
name and the full name is not the degenerate dot-plus-zone string, the
splitter succeeds and reassembly (record name, dot, zone; or the zone
itself when the record name is empty) reconstructs the full name. -/
theorem split_reassembly_roundtrip (full zone : PyStr)
    (h : dotSuffix zone full = true) (hne : full ≠ '.' :: zone) :
    ∃ record_name, _split_record_name full zone = .ok record_name
      ∧ (if record_name.isEmpty then zone else record_name ++ '.' :: zone) = full := by
  have h2 : zone = full ∨ ('.' :: zone) <:+ full := by
    rcases Bool.or_eq_true_iff.mp h with h1 | h1
    · exact Or.inl (by simpa using h1)
    · exact Or.inr (List.isSuffixOf_iff_suffix.mp h1)
  rcases h2 with h1 | h1
  · subst h1
    refine ⟨[], ?_, by simp⟩
    unfold _split_record_name pyEndsWith
    rw [if_pos (List.isSuffixOf_iff_suffix.mpr (List.suffix_refl zone))]
    rw [Nat.sub_eq_zero_of_le (Nat.le_succ zone.length), List.take_zero]
  · obtain ⟨p, hp⟩ := h1
    have hpne : p ≠ [] := by
      intro h0
      rw [h0, List.nil_append] at hp
      exact hne hp.symm
    refine ⟨p, ?_, ?_⟩
    · unfold _split_record_name pyEndsWith
      rw [if_pos (List.isSuffixOf_iff_suffix.mpr
        ((List.suffix_cons '.' zone).trans ⟨p, hp⟩))]
      have hlen : full.length - (zone.length + 1) = p.length := by
        rw [← hp]
        simp
      rw [hlen, ← hp, List.take_left]
    · rw [if_neg (by simpa using hpne)]
      exact hp

/-- C5 witness: the round trip at full name "rec.bar.com" and zone
"bar.com". -/
theorem split_reassembly_roundtrip_witness :
    ∃ record_name,
      _split_record_name (pys ("rec.bar.com")) (pys ("bar.com")) = .ok record_name
      ∧ (if record_name.isEmpty then pys ("bar.com")
         else record_name ++ '.' :: pys ("bar.com")) = pys ("rec.bar.com") :=
  split_reassembly_roundtrip (pys ("rec.bar.com")) (pys ("bar.com"))
    (by decide) (by decide)

/-- C8 counterexample: the zone cache ignores the domain.  After
resolving x.a.com to zone a.com, a call for the different domain y.b.com
returns the cached a.com, although a fresh resolution for y.b.com would
return b.com. -/
theorem zone_cache_counterexample :
    _get_zone_id_for_domain (zoneLookup [pys ("a.com"), pys ("b.com")]) none
        (pys ("x.a.com"))
      = .ok (pys ("a.com"), some (pys ("a.com")))
    ∧ _get_zone_id_for_domain (zoneLookup [pys ("a.com"), pys ("b.com")])
        (some (pys ("a.com"))) (pys ("y.b.com"))
      = .ok (pys ("a.com"), some (pys ("a.com")))
    ∧ _find_zone_id_for_domain (zoneLookup [pys ("a.com"), pys ("b.com")])
        (pys ("y.b.com"))
      = .ok (pys ("b.com")) := ⟨rfl, rfl, rfl⟩

/-- C8 amended: the resolved zone is memoized per authenticator instance,
not per domain: once the cache field holds a zone, every later call
returns that zone for any domain and never consults the provider (the
result does not depend on the lookup oracle at all); with an empty cache
the resolver runs and its result is stored. -/
theorem zone_cache_per_instance (lookup lookup2 : PyStr → Except DnsError Unit)
    (z d d2 : PyStr) :
    _get_zone_id_for_domain lookup (some z) d = .ok (z, some z)
    ∧ _get_zone_id_for_domain lookup (some z) d
        = _get_zone_id_for_domain lookup2 (some z) d2
    ∧ _get_zone_id_for_domain lookup none d =
        (match _find_zone_id_for_domain lookup d with
         | .ok w => .ok (w, some w)
         | .error e => .error e) := ⟨rfl, rfl, rfl⟩

/-- A name is a dot-delimited suffix of the stripped challenge name
exactly when it is the dot-join of some dropped tail of the label list. -/
theorem dotSuffix_chalName_iff (d z : PyStr) :
    dotSuffix z (chalName d) = true ↔
      ∃ i, i < (candidateZones d).length ∧ z = pyJoinDots ((candidateZones d).drop i) := by
  have hchal : ['.'].intercalate (candidateZones d) = chalName d :=
    List.intercalate_splitOn (chalName d) '.'
  have hdot : ∀ g ∈ candidateZones d, '.' ∉ g := not_mem_of_mem_splitOn '.' (chalName d)
  constructor
  · intro h
    unfold dotSuffix at h
    have h2 : z = ['.'].intercalate (candidateZones d)
        ∨ ('.' :: z) <:+ ['.'].intercalate (candidateZones d) := by
      rw [hchal]
      rcases Bool.or_eq_true_iff.mp h with h1 | h1
      · exact Or.inl (beq_iff_eq.mp h1)
      · exact Or.inr (List.isSuffixOf_iff_suffix.mp h1)
    rcases suffix_intercalate_eq_drop (candidateZones d) hdot z h2 with h0 | ⟨i, hi, hz⟩
    · exact absurd h0 (splitOn_never_nil '.' (chalName d))
    · exact ⟨i, hi, hz⟩
  · rintro ⟨i, hi, rfl⟩
    unfold dotSuffix pyJoinDots
    apply Bool.or_eq_true_iff.mpr
    rcases drop_is_dot_suffix (candidateZones d) i hi with h1 | h1
    · rw [hchal] at h1
      exact Or.inl (beq_iff_eq.mpr h1)
    · rw [hchal] at h1
      exact Or.inr (List.isSuffixOf_iff_suffix.mpr h1)

/-- The label count of the join of a dropped tail of the label list. -/
theorem labelCount_drop (d : PyStr) (i : Nat) (hi : i < (candidateZones d).length) :
    labelCount (pyJoinDots ((candidateZones d).drop i))
      = (candidateZones d).length - i := by
  unfold labelCount pyJoinDots
  rw [splitOn_intercalate_drop (candidateZones d) i hi
    (not_mem_of_mem_splitOn '.' (chalName d)), List.length_drop]

/-- The candidate list split at position k: the candidates before k are
the joins at indices below k, candidate k follows, then the rest. -/
theorem candidates_decompose (d : PyStr) (k : Nat) (hk : k < (candidateZones d).length) :
    candidates d = ((List.range k).map (fun i => pyJoinDots ((candidateZones d).drop i)))
      ++ pyJoinDots ((candidateZones d).drop k)
        :: ((List.range' (k + 1) ((candidateZones d).length - k - 1)).map
             (fun i => pyJoinDots ((candidateZones d).drop i))) := by
  unfold candidates
  rw [List.range_eq_range' ((candidateZones d).length)]
  have h1 : List.range' 0 k ++ List.range' (0 + 1 * k) ((candidateZones d).length - k)
      = List.range' 0 ((candidateZones d).length - k + k) :=
    List.range'_append 0 k ((candidateZones d).length - k) 1
  have h2 : (candidateZones d).length - k + k = (candidateZones d).length := by omega
  have h3 : (candidateZones d).length - k = ((candidateZones d).length - k - 1) + 1 := by
    omega
  rw [h2] at h1
  rw [← h1, h3, List.range'_succ]
  simp only [List.map_append, List.map_cons, List.range_eq_range']
  have h4 : 0 + 1 * k = k := by omega
  rw [h4]
  have h5 : (candidateZones d).length - k - 1 + 1 - 1 = (candidateZones d).length - k - 1 :=
    by omega
  rw [h5]

/-- C1 counterexample: for domain foo.com and the provider zone set
holding only the name _acme_challenge.foo.com, the resolver returns that
zone, which is not a dot-delimited suffix of the domain itself, where the
claim requires a ZoneNotFoundError. -/
theorem resolver_not_domain_suffix_counterexample :
    _find_zone_id_for_domain (zoneLookup [pys ("_acme_challenge.foo.com")]) (pys ("foo.com"))
      = .ok (pys ("_acme_challenge.foo.com"))
    ∧ dotSuffix (pys ("_acme_challenge.foo.com")) (pys ("foo.com")) = false := ⟨rfl, by decide⟩

/-- C1 amended: over a zone-set oracle the resolver returns an element of
the zone set that is a dot-delimited suffix of the stripped challenge
name (the underscore label prepended to the domain) with the maximum
number of labels among such elements, and it fails with the
unable-to-find PluginError exactly when no element of the zone set is a
dot-delimited suffix of the stripped challenge name. -/
theorem resolver_returns_max_label_suffix (Z : List PyStr) (d : PyStr) :
    (∀ z, _find_zone_id_for_domain (zoneLookup Z) d = .ok z →
        z ∈ Z ∧ dotSuffix z (chalName d) = true
          ∧ ∀ z2 ∈ Z, dotSuffix z2 (chalName d) = true → labelCount z2 ≤ labelCount z)
    ∧ ((∀ z ∈ Z, dotSuffix z (chalName d) = false) →
        _find_zone_id_for_domain (zoneLookup Z) d
          = .error (.pluginError (pys ("Unable to find a 20i hosted zone for ") ++ d)))
    ∧ ((∃ z ∈ Z, dotSuffix z (chalName d) = true) →
        ∃ z, _find_zone_id_for_domain (zoneLookup Z) d = .ok z) := by
  have hmemc : ∀ i, i < (candidateZones d).length →
      pyJoinDots ((candidateZones d).drop i) ∈ candidates d := by
    intro i hi
    unfold candidates
    exact List.mem_map.mpr ⟨i, List.mem_range.mpr hi, rfl⟩
  have hmemc2 : ∀ x ∈ candidates d,
      ∃ i, i < (candidateZones d).length ∧ x = pyJoinDots ((candidateZones d).drop i) := by
    intro x hx
    obtain ⟨i, hi, hxi⟩ := List.mem_map.mp hx
    exact ⟨i, List.mem_range.mp hi, hxi.symm⟩
  refine ⟨?_, ?_, ?_⟩
  · intro z h
    obtain ⟨l₁, l₂, hcs, hzZ, hpre⟩ := probeLoop_zone_ok Z d (candidates d) z h
    have hclen : (candidates d).length = (candidateZones d).length := by
      simp [candidates]
    have hlen2 := congrArg List.length hcs
    rw [hclen] at hlen2
    simp only [List.length_append, List.length_cons] at hlen2
    have hk : l₁.length < (candidateZones d).length := by omega
    have hdec := candidates_decompose d l₁.length hk
    rw [hcs] at hdec
    have hlenmap : l₁.length
        = ((List.range l₁.length).map
            (fun i => pyJoinDots ((candidateZones d).drop i))).length := by
      simp
    obtain ⟨hl₁, hl₂⟩ := List.append_inj hdec hlenmap
    have hz : z = pyJoinDots ((candidateZones d).drop l₁.length) := by
      injection hl₂ with h1 _
    refine ⟨hzZ, (dotSuffix_chalName_iff d z).mpr ⟨l₁.length, hk, hz⟩, ?_⟩
    intro z2 hz2 hds
    obtain ⟨j, hj, hz2J⟩ := (dotSuffix_chalName_iff d z2).mp hds
    by_cases hkj : l₁.length ≤ j
    · rw [hz2J, hz, labelCount_drop d j hj, labelCount_drop d l₁.length hk]
      omega
    · exfalso
      have hjl : z2 ∈ l₁ := by
        rw [hl₁, hz2J]
        exact List.mem_map.mpr ⟨j, List.mem_range.mpr (by omega), rfl⟩
      exact hpre z2 hjl hz2
  · intro hall
    apply probeLoop_zone_error
    intro x hx hxZ
    obtain ⟨i, hi, hxi⟩ := hmemc2 x hx
    have := (dotSuffix_chalName_iff d x).mpr ⟨i, hi, hxi⟩
    rw [hall x hxZ] at this
    exact Bool.false_ne_true this
  · rintro ⟨z, hzZ, hds⟩
    obtain ⟨i, hi, hzi⟩ := (dotSuffix_chalName_iff d z).mp hds
    exact probeLoop_zone_exists Z d (candidates d) ⟨z, hzi ▸ hmemc i hi, hzZ⟩

/-- C1 witness: for www.app.example.com against zones example.com and
other.com the resolver succeeds, returning a zone that is a maximal
dot-delimited suffix among the hosted ones. -/
theorem resolver_returns_max_label_suffix_witness :
    ∃ z, _find_zone_id_for_domain
      (zoneLookup [pys ("example.com"), pys ("other.com")])
      (pys ("www.app.example.com")) = .ok z :=
  (resolver_returns_max_label_suffix [pys ("example.com"), pys ("other.com")]
    (pys ("www.app.example.com"))).2.2 ⟨pys ("example.com"), by decide, by decide⟩

/-- When every failing lookup in a candidate list fails with a
caught-class error, the probe loop returns exactly the first successful
candidate, or the unable-to-find PluginError when none succeeds. -/
theorem probeLoop_eq_first_success (lookup : PyStr → Except DnsError Unit)
    (domain : PyStr) :
    ∀ cs : List PyStr, (cs.all (fun c =>
        match lookup c with
        | .ok _ => true
        | .error e => probeCaught e)) = true →
      probeLoop lookup domain cs =
        (match cs.find? (fun c => exceptOk (lookup c)) with
         | some c => .ok c
         | none => .error (.pluginError
             (pys ("Unable to find a 20i hosted zone for ") ++ domain))) := by
  intro cs
  induction cs with
  | nil => intro _; rfl
  | cons c cs ih =>
    intro h
    rw [List.all_cons, Bool.and_eq_true] at h
    obtain ⟨h1, h2⟩ := h
    cases hl : lookup c with
    | ok u =>
      have hfind : List.find? (fun x => exceptOk (lookup x)) (c :: cs) = some c := by
        simp [List.find?_cons, hl, exceptOk]
      rw [probeLoop_cons, hl, hfind]
    | error e =>
      have hp : probeCaught e = true := by
        rw [hl] at h1
        simpa using h1
      have hfind : List.find? (fun x => exceptOk (lookup x)) (c :: cs)
          = List.find? (fun x => exceptOk (lookup x)) cs := by
        simp [List.find?_cons, hl, exceptOk]
      rw [probeLoop_cons, hl, hfind]
      simp only [hp, if_true]
      exact ih h2

/-- C6: the resolver builds its label list by prepending the underscore
challenge label to the domain, stripping trailing dots and splitting on
dots; it probes the joins of the dropped tails in order of increasing
start index; and, whenever every failing lookup is of the caught error
class, it returns the first candidate whose lookup succeeds (failing with
the unable-to-find PluginError when none does). -/
theorem resolver_probes_candidates_in_order (lookup : PyStr → Except DnsError Unit)
    (d : PyStr)
    (h : ((candidates d).all (fun c =>
        match lookup c with
        | .ok _ => true
        | .error e => probeCaught e)) = true) :
    candidateZones d
      = (((pys ("_acme_challenge.") ++ d).reverse.dropWhile
          (fun c => c == '.')).reverse).splitOn '.'
    ∧ candidates d = (List.range (candidateZones d).length).map
        (fun i => pyJoinDots ((candidateZones d).drop i))
    ∧ _find_zone_id_for_domain lookup d =
        (match (candidates d).find? (fun c => exceptOk (lookup c)) with
         | some c => .ok c
         | none => .error (.pluginError
             (pys ("Unable to find a 20i hosted zone for ") ++ d))) :=
  ⟨rfl, rfl, probeLoop_eq_first_success lookup d (candidates d) h⟩

/-- C6 witness: the first-success characterization evaluated for
www.example.com against the zone set holding example.com, whose misses
all fail with the caught client-class error. -/
theorem resolver_probes_candidates_in_order_witness :
    _find_zone_id_for_domain (zoneLookup [pys ("example.com")])
      (pys ("www.example.com")) =
      (match (candidates (pys ("www.example.com"))).find?
          (fun c => exceptOk (zoneLookup [pys ("example.com")] c)) with
       | some c => .ok c
       | none => .error (.pluginError
           (pys ("Unable to find a 20i hosted zone for ") ++ pys ("www.example.com")))) :=
  (resolver_probes_candidates_in_order (zoneLookup [pys ("example.com")])
    (pys ("www.example.com")) (by decide)).2.2

/-- C7 counterexample: under an oracle whose probe of the first candidate
fails with a server-class HTTPError, the resolver continues to the next
candidate and succeeds, instead of propagating the server error
distinctly as the claim requires. -/
theorem probe_swallows_server_error_counterexample :
    serverErrorThenOk (pys ("_acme_challenge.a.com")) = .error (.httpError true)
    ∧ (pys ("_acme_challenge.a.com")) ∈ candidates (pys ("a.com"))
    ∧ _find_zone_id_for_domain serverErrorThenOk (pys ("a.com"))
        = .ok (pys ("a.com")) := ⟨rfl, by decide, rfl⟩

/-- The probe loop over any candidate list swallows a longest prefix of
candidates failing with caught-class errors (HTTPError of either status
class, or APIError); after that prefix it either runs out of candidates
and raises the unable-to-find PluginError, or returns the next candidate
when its lookup succeeds, or propagates the next candidate error
unchanged when that error is not of the caught class. -/
theorem probeLoop_error_cases (lookup : PyStr → Except DnsError Unit) (domain : PyStr) :
    ∀ cs : List PyStr, ∃ l₁ l₂, cs = l₁ ++ l₂
      ∧ (∀ c ∈ l₁, ∃ e, lookup c = .error e ∧ probeCaught e = true)
      ∧ (match l₂ with
         | [] => probeLoop lookup domain cs = .error (.pluginError
             (pys ("Unable to find a 20i hosted zone for ") ++ domain))
         | c :: _ =>
             (∃ u, lookup c = .ok u ∧ probeLoop lookup domain cs = .ok c)
             ∨ (∃ e, lookup c = .error e ∧ probeCaught e = false
                 ∧ probeLoop lookup domain cs = .error e)) := by
  intro cs
  induction cs with
  | nil => exact ⟨[], [], rfl, by simp, rfl⟩
  | cons c cs ih =>
    cases hl : lookup c with
    | ok u =>
      refine ⟨[], c :: cs, rfl, by simp, ?_⟩
      exact Or.inl ⟨u, hl, by rw [probeLoop_cons, hl]⟩
    | error e =>
      by_cases hp : probeCaught e = true
      · obtain ⟨l₁, l₂, hcs, hl₁, hrest⟩ := ih
        have hred : probeLoop lookup domain (c :: cs) = probeLoop lookup domain cs := by
          rw [probeLoop_cons, hl]
          simp [hp]
        refine ⟨c :: l₁, l₂, by rw [List.cons_append, hcs], ?_, ?_⟩
        · intro x hx
          rcases List.mem_cons.mp hx with h1 | h1
          · subst h1; exact ⟨e, hl, hp⟩
          · exact hl₁ x h1
        · cases l₂ with
          | nil => rw [hred]; exact hrest
          | cons c2 l₂' =>
            rcases hrest with ⟨u, hu, hres⟩ | ⟨e2, he2, hpe2, hres⟩
            · exact Or.inl ⟨u, hu, by rw [hred]; exact hres⟩
            · exact Or.inr ⟨e2, he2, hpe2, by rw [hred]; exact hres⟩
      · refine ⟨[], c :: cs, rfl, by simp, ?_⟩
        refine Or.inr ⟨e, hl, by simpa using hp, ?_⟩
        rw [probeLoop_cons, hl]
        simp [hp]

/-- C7 amended: during zone probing the resolver swallows every
caught-class failure, namely any HTTPError (client or server status
class) and any APIError, continuing to the next candidate; an error
outside that class propagates unchanged to the caller; and the resolver
raises the unable-to-find PluginError exactly by exhausting candidates
that all failed with caught-class errors. -/
theorem resolver_error_propagation (lookup : PyStr → Except DnsError Unit) (d : PyStr) :
    ∃ l₁ l₂, candidates d = l₁ ++ l₂
      ∧ (∀ c ∈ l₁, ∃ e, lookup c = .error e ∧ probeCaught e = true)
      ∧ (match l₂ with
         | [] => _find_zone_id_for_domain lookup d = .error (.pluginError
             (pys ("Unable to find a 20i hosted zone for ") ++ d))
         | c :: _ =>
             (∃ u, lookup c = .ok u ∧ _find_zone_id_for_domain lookup d = .ok c)
             ∨ (∃ e, lookup c = .error e ∧ probeCaught e = false
                 ∧ _find_zone_id_for_domain lookup d = .error e)) :=
  probeLoop_error_cases lookup d (candidates d)
